import Mathlib

/-!
Shallow embedding of the `rust_sdstore` server's admission-and-execution
engine, translated from the Rust sources:

* `src/core/filter.rs` — the closed set of seven filters;
* `src/server_config.rs` — `FiltersConfig` and its config-file parser;
* `src/core/limits.rs` — `RunningFilters` and the admission predicate;
* `src/core/monitor.rs` — the worker body `start_pipeline_monitor` and
  its error taxonomy;
* `src/core/server/state.rs` — `ServerState` with its coordinator
  operations, `mon_res_to_cl_msg`, and the status formatter;
* `src/bin/sdstored.rs` — the `task_steal` drain loop.

Machine integers (`usize`, `u32`, `u64`) are modelled as `Nat`; `usize`
subtraction (`x - 1` in `decrement_filter`) is modelled by truncated
`Nat` subtraction.  Effects (file opens, process spawns, socket sends,
channel sends) are modelled by explicit oracle parameters recording the
outcome the environment would produce.
-/

namespace Sdstore

/-- Translation of `enum Filter` from `src/core/filter.rs`: the closed set of
seven filter names. -/
inductive Filter where
  | nop
  | bcompress
  | bdecompress
  | gcompress
  | gdecompress
  | encrypt
  | decrypt
deriving DecidableEq, Repr

/-- Translation of the `Display` instance for `Filter`
(`src/core/filter.rs`): the lowercase name of each filter. -/
def Filter.name : Filter → String
  | .nop => "nop"
  | .bcompress => "bcompress"
  | .bdecompress => "bdecompress"
  | .gcompress => "gcompress"
  | .gdecompress => "gdecompress"
  | .encrypt => "encrypt"
  | .decrypt => "decrypt"

/-- Enumeration of all seven filters, in the declaration order of
`enum Filter`. -/
def Filter.all : List Filter :=
  [.nop, .bcompress, .bdecompress, .gcompress, .gdecompress, .encrypt, .decrypt]

instance : Fintype Filter :=
  ⟨⟨Filter.all, by decide⟩, by intro f; cases f <;> decide⟩

/-- Translation of `struct FiltersConfig` (`src/server_config.rs`, and the
structurally identical struct in the missing `src/core/server/config.rs`):
one non-negative count per filter. -/
structure FiltersConfig where
  nop : Nat
  bcompress : Nat
  bdecompress : Nat
  gcompress : Nat
  gdecompress : Nat
  encrypt : Nat
  decrypt : Nat
deriving DecidableEq, Repr

/-- Translation of `FiltersConfig::default`: every limit is `0`. -/
def FiltersConfig.default : FiltersConfig :=
  ⟨0, 0, 0, 0, 0, 0, 0⟩

/-- Component accessor: the count a `FiltersConfig` stores for a given
filter. Measurement helper used to state componentwise properties. -/
def FiltersConfig.get (c : FiltersConfig) : Filter → Nat
  | .nop => c.nop
  | .bcompress => c.bcompress
  | .bdecompress => c.bdecompress
  | .gcompress => c.gcompress
  | .gdecompress => c.gdecompress
  | .encrypt => c.encrypt
  | .decrypt => c.decrypt

/-- Modelled from the spec: the file `src/core/server/config.rs`, which the
sources import `FiltersConfig`'s ordering from, is not present under `src/`
(only this struct's twin in `src/server_config.rs` is, and it derives no
ordering).  The spec defines the comparison used by admission as dominance:
`a ≤ b` iff each component of `a` is ≤ the corresponding component of `b`. -/
def FiltersConfig.le (a b : FiltersConfig) : Bool :=
  a.nop ≤ b.nop && a.bcompress ≤ b.bcompress && a.bdecompress ≤ b.bdecompress &&
  a.gcompress ≤ b.gcompress && a.gdecompress ≤ b.gdecompress &&
  a.encrypt ≤ b.encrypt && a.decrypt ≤ b.decrypt

/-- Translation of `struct RunningFilters(FiltersConfig)`
(`src/core/limits.rs`): the newtype is erased, the running counts are a
`FiltersConfig`. -/
abbrev RunningFilters := FiltersConfig

/-- Translation of `RunningFilters::change_filter`: apply `op` to the
component selected by `filter`. -/
def RunningFilters.change_filter (rf : RunningFilters) (filter : Filter)
    (op : Nat → Nat) : RunningFilters :=
  match filter with
  | .nop => { rf with nop := op rf.nop }
  | .bcompress => { rf with bcompress := op rf.bcompress }
  | .bdecompress => { rf with bdecompress := op rf.bdecompress }
  | .gcompress => { rf with gcompress := op rf.gcompress }
  | .gdecompress => { rf with gdecompress := op rf.gdecompress }
  | .encrypt => { rf with encrypt := op rf.encrypt }
  | .decrypt => { rf with decrypt := op rf.decrypt }

/-- Translation of `RunningFilters::increment_filter`. -/
def RunningFilters.increment_filter (rf : RunningFilters) (f : Filter) :
    RunningFilters :=
  rf.change_filter f (fun x => x + 1)

/-- Translation of `RunningFilters::decrement_filter`.  The Rust `x - 1` on
`usize` is modelled by truncated `Nat` subtraction. -/
def RunningFilters.decrement_filter (rf : RunningFilters) (f : Filter) :
    RunningFilters :=
  rf.change_filter f (fun x => x - 1)

/-- Translation of `impl AddAssign<&Vec<Filter>> for RunningFilters`
(`src/core/limits.rs`): increment once per element of the request, in
order. -/
def RunningFilters.add_assign (rf : RunningFilters) (rhs : List Filter) :
    RunningFilters :=
  rhs.foldl RunningFilters.increment_filter rf

/-- Translation of `impl SubAssign<&Vec<Filter>> for RunningFilters`
(`src/core/limits.rs`): decrement once per element of the request, in
order. -/
def RunningFilters.sub_assign (rf : RunningFilters) (rhs : List Filter) :
    RunningFilters :=
  rhs.foldl RunningFilters.decrement_filter rf

/-- Translation of `RunningFilters::can_run_pipeline`
(`src/core/limits.rs`): add the requested filters to the running counts
and compare against the configured limits. -/
def RunningFilters.can_run_pipeline (rf : RunningFilters)
    (server_cfg : FiltersConfig) (client_req : List Filter) : Bool :=
  FiltersConfig.le (rf.add_assign client_req) server_cfg

section AdmissionLemmas

lemma change_filter_get (rf : RunningFilters) (f g : Filter) (op : Nat → Nat) :
    (rf.change_filter f op).get g = if g = f then op (rf.get g) else rf.get g := by
  cases f <;> cases g <;>
    simp [RunningFilters.change_filter, FiltersConfig.get]

lemma increment_filter_get (rf : RunningFilters) (f g : Filter) :
    (rf.increment_filter f).get g =
      if g = f then rf.get g + 1 else rf.get g := by
  simp [RunningFilters.increment_filter, change_filter_get]

lemma add_assign_get (fs : List Filter) (rf : RunningFilters) (g : Filter) :
    (rf.add_assign fs).get g = rf.get g + fs.count g := by
  induction fs generalizing rf with
  | nil => simp [RunningFilters.add_assign]
  | cons f fs ih =>
    have hstep : (f :: fs).foldl RunningFilters.increment_filter rf =
        fs.foldl RunningFilters.increment_filter (rf.increment_filter f) := rfl
    simp only [RunningFilters.add_assign] at ih ⊢
    rw [hstep, ih, increment_filter_get, List.count_cons]
    by_cases h : g = f
    · simp [h, beq_iff_eq]
      omega
    · have hfg : ¬ f = g := fun hfg => h hfg.symm
      simp [h, hfg]

lemma le_iff_get (a b : FiltersConfig) :
    FiltersConfig.le a b = true ↔ ∀ f : Filter, a.get f ≤ b.get f := by
  constructor
  · intro h f
    simp only [FiltersConfig.le, Bool.and_eq_true, decide_eq_true_eq] at h
    cases f <;> simp [FiltersConfig.get] <;> omega
  · intro h
    simp only [FiltersConfig.le, Bool.and_eq_true, decide_eq_true_eq]
    refine ⟨⟨⟨⟨⟨⟨?_, ?_⟩, ?_⟩, ?_⟩, ?_⟩, ?_⟩, ?_⟩ <;>
      first
      | exact h .nop
      | exact h .bcompress
      | exact h .bdecompress
      | exact h .gcompress
      | exact h .gdecompress
      | exact h .encrypt
      | exact h .decrypt

end AdmissionLemmas

/-- C1: `can_run_pipeline` accepts exactly when, for each of the seven
filters, the running count plus the number of occurrences of that filter in
the requested sequence is at most the configured limit. -/
theorem can_run_pipeline_iff_componentwise (r : RunningFilters)
    (l : FiltersConfig) (fs : List Filter) :
    r.can_run_pipeline l fs = true ↔
      ∀ f : Filter, r.get f + fs.count f ≤ l.get f := by
  unfold RunningFilters.can_run_pipeline
  rw [le_iff_get]
  constructor
  · intro h f
    have := h f
    rwa [add_assign_get] at this
  · intro h f
    rw [add_assign_get]
    exact h f

/-- Translation of `struct ClientTask` (`src/core/client_task.rs`).  Paths
(`PathBuf`) are opaque strings; `client_pid : u32` and
`priority : usize` are `Nat`. -/
structure ClientTask where
  client_pid : Nat
  priority : Nat
  input : String
  output : String
  transformations : List Filter
deriving DecidableEq, Repr

/-- Translation of `ClientTask::get_transformations`. -/
def ClientTask.get_transformations (t : ClientTask) : List Filter :=
  t.transformations

/-- Translation of `enum MonitorError` as matched exhaustively by
`mon_res_to_cl_msg` in `src/core/server/state.rs` (the iteration of
`src/core/monitor.rs` present under `src/` additionally holds the
thread-spawn error that `state.rs` keeps in the separate
`MonitorBuildError`).  The `io::Error`, `PopenError` and `ExitStatus`
payloads are opaque and dropped. -/
inductive MonitorError where
  | noTransformationsGiven
  | inputFileError
  | outputFileError
  | pipelineFailure
  | pipelineExitStatusError
  | inputFileMetadataError
  | outputFileMetadataError
  | mpscSenderError
deriving DecidableEq, Repr

/-- Translation of `type MonitorSuccess = (u64, u64)`: input and output
file sizes in bytes. -/
abbrev MonitorSuccess := Nat × Nat

/-- Translation of `enum MessageToClient` (`src/core/messaging.rs`). -/
inductive MessageToClient where
  | requestInitError
  | requestError
  | pending
  | processing
  | concluded (bytes : MonitorSuccess)
deriving DecidableEq, Repr

/-- Translation of `mon_res_to_cl_msg` (`src/core/server/state.rs`):
convert a monitor's result into the message sent to the requesting
client. -/
def mon_res_to_cl_msg (result : Except MonitorError MonitorSuccess) :
    MessageToClient :=
  match result with
  | .ok bytes_in_out => .concluded bytes_in_out
  | .error err =>
    match err with
    | .noTransformationsGiven | .inputFileError | .outputFileError =>
      .requestInitError
    | .pipelineFailure | .pipelineExitStatusError
    | .inputFileMetadataError | .outputFileMetadataError
    | .mpscSenderError =>
      .requestError

/-- Oracle for the ambient effects of one worker execution
(`start_pipeline_monitor`): whether each file open succeeds, the outcome
of waiting on the pipeline (`error` models a `PopenError`, `ok b` an exit
with success flag `b`), the size each `fs::metadata` call reports
(`none` models a metadata read failure), and whether the completion-channel
send succeeds. -/
structure PipelineEnv where
  inputOpen : Bool
  outputOpen : Bool
  pipelineResult : Except Unit Bool
  inputMeta : Option Nat
  outputMeta : Option Nat
  sendOk : Bool
deriving Repr

/-- Translation of `start_pipeline_monitor` (`src/core/monitor.rs`),
with effects decided by a `PipelineEnv` oracle.  The first component of
the returned pair is the completion event posted on the mpsc channel
(`none` when the function returns without sending); the second is the
function's own `Result<(), MonitorError>`.  The source opens the input
file, then the output file, then checks for an empty command list, each
failure returning early; a pipeline error, a non-success exit status, or
a successful exit with both metadata reads succeeding reaches the final
`sender.send`, while a metadata read failure returns early with
`InputFileMetadataError` / `OutputFileMetadataError` before any send. -/
def start_pipeline_monitor (task : ClientTask) (env : PipelineEnv) :
    Option (Except MonitorError MonitorSuccess) × Except MonitorError Unit :=
  if !env.inputOpen then
    (none, .error .inputFileError)
  else if !env.outputOpen then
    (none, .error .outputFileError)
  else if task.transformations.isEmpty then
    (none, .error .noTransformationsGiven)
  else
    let send : Except MonitorError MonitorSuccess →
        Option (Except MonitorError MonitorSuccess) × Except MonitorError Unit :=
      fun r =>
        (some r, if env.sendOk then .ok () else .error .mpscSenderError)
    match env.pipelineResult with
    | .error _ => send (.error .pipelineFailure)
    | .ok true =>
      match env.inputMeta with
      | none => (none, .error .inputFileMetadataError)
      | some bytes_in =>
        match env.outputMeta with
        | none => (none, .error .outputFileMetadataError)
        | some bytes_out => send (.ok (bytes_in, bytes_out))
    | .ok false => send (.error .pipelineExitStatusError)

/-- C2 counter-evidence: a worker whose pipeline exits successfully but
whose input-file metadata read fails posts no completion event at all —
the function returns `Err(InputFileMetadataError)` before reaching the
channel send. -/
theorem metadata_failure_posts_no_event :
    (start_pipeline_monitor
      ⟨1, 0, "in.txt", "out.txt", [Filter.nop]⟩
      ⟨true, true, .ok true, none, some 5, true⟩).1 = none ∧
    (start_pipeline_monitor
      ⟨1, 0, "in.txt", "out.txt", [Filter.nop]⟩
      ⟨true, true, .ok true, none, some 5, true⟩).2 =
      .error .inputFileMetadataError := by
  constructor <;> rfl

/-- C7: the coordinator's conversion of a worker result into a client
message is: `Concluded` exactly on success; `RequestInitError` exactly for
the pre-execution failures (empty filter list, input-file open error,
output-file open error); `RequestError` exactly for every other failure. -/
theorem mon_res_to_cl_msg_characterisation
    (r : Except MonitorError MonitorSuccess) :
    (∀ b : MonitorSuccess, mon_res_to_cl_msg r = .concluded b ↔ r = .ok b) ∧
    (mon_res_to_cl_msg r = .requestInitError ↔
      (r = .error .noTransformationsGiven ∨ r = .error .inputFileError ∨
       r = .error .outputFileError)) ∧
    (mon_res_to_cl_msg r = .requestError ↔
      (r = .error .pipelineFailure ∨ r = .error .pipelineExitStatusError ∨
       r = .error .inputFileMetadataError ∨
       r = .error .outputFileMetadataError ∨
       r = .error .mpscSenderError)) := by
  rcases r with e | b
  · cases e <;>
      refine ⟨fun b' => by simp [mon_res_to_cl_msg], by simp [mon_res_to_cl_msg],
        by simp [mon_res_to_cl_msg]⟩
  · refine ⟨fun b' => ?_, by simp [mon_res_to_cl_msg], by simp [mon_res_to_cl_msg]⟩
    simp [mon_res_to_cl_msg]

/-- Model of the external `priority_queue` crate's
`PriorityQueue<ClientTask, usize>` as the server uses it, following the
crate's documented contract: entries are item–priority pairs kept with at
most one entry per item (a `push` of an item already present updates that
item's priority in place instead of inserting a second copy), and
`peek`/`pop` return an entry of maximal priority.  The crate leaves the
order among equal priorities unspecified; this model picks the
earliest-inserted maximal entry.  No theorem below depends on which
maximal entry is picked. -/
abbrev PQueue := List (ClientTask × Nat)

/-- Model of `PriorityQueue::push`: update the priority of an existing
equal item, otherwise insert a new entry. -/
def PQueue.push (q : PQueue) (t : ClientTask) (p : Nat) : PQueue :=
  if q.any (fun e => e.1 = t) then
    q.map (fun e => if e.1 = t then (e.1, p) else e)
  else
    q ++ [(t, p)]

/-- Model of `PriorityQueue::peek`: an entry of maximal priority, `none`
on the empty queue. -/
def PQueue.peek : PQueue → Option (ClientTask × Nat)
  | [] => none
  | e :: rest =>
    match PQueue.peek rest with
    | none => some e
    | some m => if m.2 > e.2 then some m else some e

/-- Model of `PriorityQueue::pop`: remove and return the entry `peek`
returns. -/
def PQueue.pop (q : PQueue) : Option ((ClientTask × Nat) × PQueue) :=
  match q.peek with
  | none => none
  | some m => some (m, q.erase m)

/-- Number of queue entries holding a given task. -/
def PQueue.countTask (q : PQueue) (t : ClientTask) : Nat :=
  (q.filter (fun e => e.1 = t)).length

/-- Translation of `struct Monitor` (`src/core/monitor.rs`): the task a
worker is responsible for, its task number, and the worker's thread
identifier (`ThreadId` modelled as `Nat`). -/
structure Monitor where
  task : ClientTask
  task_number : Nat
  thread : Nat
deriving DecidableEq, Repr

/-- Translation of `struct MonitorResult` (`src/core/monitor.rs`). -/
structure MonitorResult where
  thread : Nat
  result : Except MonitorError MonitorSuccess

/-- Translation of the `enum ServerError` variants reachable in the
operations modelled here (`src/core/server/state.rs`); the distinct
socket-write failure variants are collapsed into one and their payloads
dropped. -/
inductive ServerError where
  | udSocketSendError
  | monitorSpawnError
deriving DecidableEq, Repr

/-- Model of `HashMap::insert` on the running-worker table (assoc list
keyed by thread id): replace the value at an existing key, otherwise
append. -/
def insertAssoc (m : List (Nat × Monitor)) (k : Nat) (v : Monitor) :
    List (Nat × Monitor) :=
  if m.any (fun e => e.1 = k) then
    m.map (fun e => if e.1 = k then (k, v) else e)
  else
    m ++ [(k, v)]

/-- Model of `HashMap::remove` on the running-worker table: the removed
value, if any, and the remaining table. -/
def removeAssoc : List (Nat × Monitor) → Nat →
    Option Monitor × List (Nat × Monitor)
  | [], _ => (none, [])
  | e :: rest, k =>
    if e.1 = k then (some e.2, rest)
    else
      let r := removeAssoc rest k
      (r.1, e :: r.2)

/-- Translation of the engine-state fields of `struct ServerState`
(`src/core/server/state.rs`).  The channel endpoints, socket handle and
socket paths are ambient effects and are not part of the state the
claims quantify over. -/
structure ServerState where
  task_counter : Nat
  task_pqueue : PQueue
  filters_count : RunningFilters
  running_tasks : List (Nat × Monitor)
deriving Repr

/-- Translation of `ServerState::new`'s engine-state initialisation:
counter `0`, empty queue, default (all-zero) running counts, empty
worker table. -/
def ServerState.init : ServerState :=
  ⟨0, [], FiltersConfig.default, []⟩

/-- Translation of `ServerState::new_task`: push the task onto the
priority queue keyed by its priority, then send `Pending` to the client
(the send outcome is the oracle `sendOk`; the push happens regardless). -/
def ServerState.new_task (s : ServerState) (task : ClientTask)
    (sendOk : Bool) : ServerState × Except ServerError Unit :=
  ({ s with task_pqueue := s.task_pqueue.push task task.priority },
   if sendOk then .ok () else .error .udSocketSendError)

/-- Translation of `ServerState::try_pop_task`: peek at the
highest-priority task; pop it only when `can_run_pipeline` accepts it,
otherwise return `none` and leave the state unchanged. -/
def ServerState.try_pop_task (s : ServerState) (cfg : FiltersConfig) :
    Option ClientTask × ServerState :=
  match s.task_pqueue.peek with
  | some (task, _) =>
    if s.filters_count.can_run_pipeline cfg task.transformations then
      match s.task_pqueue.pop with
      | some (e, q') => (some e.1, { s with task_pqueue := q' })
      | none => (none, s)
    else (none, s)
  | none => (none, s)

/-- Translation of `ServerState::process_task`, with the `Processing`
send and the `Monitor::build` spawn decided by oracles.  The source sends
first (a send failure returns before any mutation), then adds the task's
filters to the running counts, then increments the task counter, then
builds the monitor — a build failure returns with the counts already
added and the counter already incremented but no monitor inserted — and
finally inserts the monitor into the running-worker table. -/
def ServerState.process_task (s : ServerState) (task : ClientTask)
    (sendOk : Bool) (buildOk : Bool) (tid : Nat) :
    ServerState × Except ServerError (Nat × Nat) :=
  if !sendOk then (s, .error .udSocketSendError)
  else
    let s1 := { s with
      filters_count := s.filters_count.add_assign task.transformations }
    let task_number := s1.task_counter
    let s2 := { s1 with task_counter := s1.task_counter + 1 }
    if !buildOk then (s2, .error .monitorSpawnError)
    else
      ({ s2 with
         running_tasks := insertAssoc s2.running_tasks tid
           ⟨task, task_number, tid⟩ },
       .ok (tid, task_number))

/-- Translation of `ServerState::handle_task_result`: remove the worker's
monitor from the table (the source panics when it is absent, modelled as
`none`), subtract the task's filters from the running counts, and send
the converted result to the client. -/
def ServerState.handle_task_result (s : ServerState)
    (mon_res : MonitorResult) (sendOk : Bool) :
    Option (ServerState × Except ServerError Unit) :=
  match removeAssoc s.running_tasks mon_res.thread with
  | (none, _) => none
  | (some monitor, rest) =>
    some ({ s with
            running_tasks := rest,
            filters_count :=
              s.filters_count.sub_assign monitor.task.get_transformations },
          if sendOk then .ok () else .error .udSocketSendError)

section QueueLemmas

lemma peek_eq_none (q : PQueue) (h : q.peek = none) : q = [] := by
  cases q with
  | nil => rfl
  | cons e rest =>
    exfalso
    simp only [PQueue.peek] at h
    cases hr : PQueue.peek rest <;> rw [hr] at h
    · exact Option.noConfusion h
    · rename_i m
      by_cases hgt : m.2 > e.2 <;> simp [hgt] at h

lemma peek_mem_max (q : PQueue) (m : ClientTask × Nat)
    (h : q.peek = some m) : m ∈ q ∧ ∀ e ∈ q, e.2 ≤ m.2 := by
  induction q generalizing m with
  | nil => simp [PQueue.peek] at h
  | cons e rest ih =>
    simp only [PQueue.peek] at h
    cases hrest : PQueue.peek rest with
    | none =>
      rw [hrest] at h
      cases h
      have hempty : rest = [] := peek_eq_none rest hrest
      subst hempty
      refine ⟨List.mem_singleton.mpr rfl, ?_⟩
      intro x hx
      simp only [List.mem_singleton] at hx
      simp [hx]
    | some m' =>
      rw [hrest] at h
      obtain ⟨hm', hmax⟩ := ih m' hrest
      by_cases hgt : m'.2 > e.2
      · simp only [hgt, if_true] at h
        cases h
        refine ⟨List.mem_cons_of_mem _ hm', ?_⟩
        intro x hx
        rcases List.mem_cons.mp hx with hx | hx
        · subst hx; omega
        · exact hmax x hx
      · simp only [hgt, if_false] at h
        cases h
        refine ⟨List.mem_cons_self _ _, ?_⟩
        intro x hx
        rcases List.mem_cons.mp hx with hx | hx
        · subst hx; omega
        · exact le_trans (hmax x hx) (by omega)

lemma push_idem (q : PQueue) (t : ClientTask) (p : Nat) :
    PQueue.push (PQueue.push q t p) t p = PQueue.push q t p := by
  by_cases h : q.any (fun e => e.1 = t) = true
  · have h1 : PQueue.push q t p =
        q.map (fun e => if e.1 = t then (e.1, p) else e) := by
      simp [PQueue.push, h]
    have hany : (q.map (fun e => if e.1 = t then (e.1, p) else e)).any
        (fun e => e.1 = t) = true := by
      rw [List.any_eq_true] at h ⊢
      obtain ⟨e, he, het⟩ := h
      simp only [decide_eq_true_eq] at het
      exact ⟨(e.1, p), List.mem_map.mpr ⟨e, he, by simp [het]⟩,
        by simp [het]⟩
    rw [h1]
    simp only [PQueue.push, hany, if_true]
    rw [List.map_map]
    apply List.map_congr_left
    intro e _
    by_cases het : e.1 = t <;> simp [Function.comp, het]
  · have hf : q.any (fun e => e.1 = t) = false := Bool.eq_false_iff.mpr h
    have h1 : PQueue.push q t p = q ++ [(t, p)] := by
      simp [PQueue.push, hf]
    rw [h1]
    have hany : ((q ++ [(t, p)]).any (fun e => e.1 = t)) = true := by
      rw [List.any_append]; simp
    simp only [PQueue.push, hany, if_true]
    rw [List.map_append]
    congr 1
    · have hmap : List.map (fun e => if e.1 = t then (e.1, p) else e) q =
          List.map id q := by
        apply List.map_congr_left
        intro e he
        have hne : ¬ (e.1 = t) := by
          intro hc
          apply h
          rw [List.any_eq_true]
          exact ⟨e, he, by simp [hc]⟩
        simp [hne]
      rw [hmap, List.map_id]
    · simp

end QueueLemmas

/-- C4: the drain step admits only from the head of the queue and stops at
an inadmissible head — if the highest-priority entry is not admissible
under the current running counts, `try_pop_task` pops nothing and leaves
the state unchanged, and any task it does pop is a peeked entry of
maximal priority, so no strictly-lower-priority entry is ever started
while an inadmissible higher-priority entry is queued. -/
theorem try_pop_task_strict_priority (s : ServerState) (cfg : FiltersConfig) :
    (∀ t p, s.task_pqueue.peek = some (t, p) →
      s.filters_count.can_run_pipeline cfg t.transformations = false →
      s.try_pop_task cfg = (none, s)) ∧
    (∀ t s', s.try_pop_task cfg = (some t, s') →
      ∃ p, s.task_pqueue.peek = some (t, p) ∧
        (t, p) ∈ s.task_pqueue ∧ ∀ e ∈ s.task_pqueue, e.2 ≤ p) := by
  constructor
  · intro t p hpeek hcant
    simp [ServerState.try_pop_task, hpeek, hcant]
  · intro t s' hpop
    unfold ServerState.try_pop_task at hpop
    cases hpeek : s.task_pqueue.peek with
    | none => rw [hpeek] at hpop; exact absurd hpop (by simp)
    | some m =>
      rw [hpeek] at hpop
      by_cases hcan :
          s.filters_count.can_run_pipeline cfg m.1.transformations = true
      · simp only [hcan, if_true] at hpop
        unfold PQueue.pop at hpop
        rw [hpeek] at hpop
        simp only [Prod.mk.injEq, Option.some.injEq] at hpop
        obtain ⟨h1, -⟩ := hpop
        subst h1
        obtain ⟨hm, hmax⟩ := peek_mem_max _ _ hpeek
        exact ⟨m.2, by simp [hpeek], by simpa using hm, hmax⟩
      · rw [Bool.not_eq_true] at hcan
        simp [hcan] at hpop

/-- C10: enqueueing a second `ProcFile` request identical to one already
pending does not add a second queue entry — the queue after the second
`new_task` is exactly the queue after the first, and when the task was
not pending before, the first `new_task` leaves exactly one entry for
it. -/
theorem duplicate_new_task_collapses (s : ServerState) (t : ClientTask)
    (ok1 ok2 : Bool) :
    (((s.new_task t ok1).1.new_task t ok2).1.task_pqueue =
      ((s.new_task t ok1).1).task_pqueue) ∧
    (s.task_pqueue.countTask t = 0 →
      ((s.new_task t ok1).1).task_pqueue.countTask t = 1) := by
  constructor
  · simp [ServerState.new_task, push_idem]
  · intro h0
    simp only [ServerState.new_task, PQueue.countTask] at h0 ⊢
    have hfil : s.task_pqueue.filter (fun e => decide (e.1 = t)) = [] :=
      List.length_eq_zero.mp h0
    have hnone : s.task_pqueue.any (fun e => e.1 = t) = false := by
      rw [List.any_eq_false]
      intro e he hc
      have hmem : e ∈ s.task_pqueue.filter (fun e => decide (e.1 = t)) :=
        List.mem_filter.mpr ⟨he, hc⟩
      rw [hfil] at hmem
      exact absurd hmem (List.not_mem_nil e)
    simp only [PQueue.push, hnone, Bool.false_eq_true, if_false]
    rw [List.filter_append, List.length_append, h0]
    simp

/-- Per-filter total of the running-worker table: the sum, over every
monitor in the table, of the number of occurrences of the filter in that
monitor's task. -/
def tableCount (rt : List (Nat × Monitor)) (f : Filter) : Nat :=
  (rt.map (fun e => e.2.task.transformations.count f)).sum

/-- Accounting-conservation invariant: the running `FilterCounts` equals,
for every filter, the componentwise sum of the filter multisets of the
tasks in the running-worker table. -/
def accounting (s : ServerState) : Prop :=
  ∀ f : Filter, s.filters_count.get f = tableCount s.running_tasks f

/-- Fresh thread identifier for a newly spawned monitor: the runtime
guarantees a spawned thread's id differs from every live thread's, which
the model realises as one more than the largest id in the table. -/
def freshTid (rt : List (Nat × Monitor)) : Nat :=
  (rt.map (fun e => e.1)).foldr max 0 + 1

/-- Coordinator events, one per source of the merged stream: an inbound
`ProcFile` request handled by `new_task`, one drain step
(`try_pop_task` followed by `process_task` when a task was popped), and
a worker completion handled by `handle_task_result`.  `sendOk` and
`buildOk` are the effect oracles of the operation. -/
inductive ServerEvent where
  | clientRequest (task : ClientTask) (sendOk : Bool)
  | drain (sendOk : Bool) (buildOk : Bool)
  | workerCompletion (res : MonitorResult) (sendOk : Bool)

/-- Effect oracle of the monitor spawn inside an event: `false` only for
a drain step whose `Monitor::build` fails. -/
def ServerEvent.buildOkFlag : ServerEvent → Bool
  | .drain _ buildOk => buildOk
  | _ => true

/-- One coordinator step: dispatch an event to the operation that handles
it in `src/core/server/state.rs`.  `none` models the `panic!` of
`handle_task_result` on an unknown worker id. -/
def ServerState.step (cfg : FiltersConfig) (s : ServerState) :
    ServerEvent → Option ServerState
  | .clientRequest task sendOk => some (s.new_task task sendOk).1
  | .drain sendOk buildOk =>
    match s.try_pop_task cfg with
    | (some task, s') =>
      some (s'.process_task task sendOk buildOk (freshTid s'.running_tasks)).1
    | (none, s') => some s'
  | .workerCompletion res sendOk =>
    match s.handle_task_result res sendOk with
    | none => none
    | some (s', _) => some s'

/-- Run a sequence of coordinator events from a given state; `none` when
some step panics. -/
def ServerState.runFrom (cfg : FiltersConfig) (s : ServerState) :
    List ServerEvent → Option ServerState
  | [] => some s
  | e :: evs =>
    match s.step cfg e with
    | none => none
    | some s' => s'.runFrom cfg evs

/-- Run a sequence of coordinator events from the initial state. -/
def ServerState.run (cfg : FiltersConfig) (evs : List ServerEvent) :
    Option ServerState :=
  ServerState.init.runFrom cfg evs

section AccountingLemmas

lemma decrement_filter_get (rf : RunningFilters) (f g : Filter) :
    (rf.decrement_filter f).get g =
      if g = f then rf.get g - 1 else rf.get g := by
  simp [RunningFilters.decrement_filter, change_filter_get]

lemma sub_assign_get (fs : List Filter) (rf : RunningFilters) (g : Filter)
    (h : fs.count g ≤ rf.get g) :
    (rf.sub_assign fs).get g = rf.get g - fs.count g := by
  induction fs generalizing rf with
  | nil => simp [RunningFilters.sub_assign]
  | cons f fs ih =>
    have hstep : (f :: fs).foldl RunningFilters.decrement_filter rf =
        fs.foldl RunningFilters.decrement_filter (rf.decrement_filter f) := rfl
    simp only [RunningFilters.sub_assign] at ih ⊢
    rw [hstep]
    by_cases hg : g = f
    · subst hg
      rw [List.count_cons_self] at h ⊢
      have hget : (rf.decrement_filter g).get g = rf.get g - 1 := by
        simp [decrement_filter_get]
      rw [ih (rf.decrement_filter g) (by rw [hget]; omega), hget]
      omega
    · have hfg : ¬ f = g := fun hc => hg hc.symm
      rw [List.count_cons_of_ne (fun hc => hfg hc.symm)] at h ⊢
      have hget : (rf.decrement_filter f).get g = rf.get g := by
        simp [decrement_filter_get, hg]
      rw [ih (rf.decrement_filter f) (by rw [hget]; exact h), hget]

lemma removeAssoc_none (rt : List (Nat × Monitor)) (k : Nat)
    (h : (removeAssoc rt k).1 = none) : (removeAssoc rt k).2 = rt := by
  induction rt with
  | nil => rfl
  | cons e rest ih =>
    simp only [removeAssoc] at h ⊢
    by_cases hk : e.1 = k
    · simp [hk] at h
    · simp only [hk, if_false] at h ⊢
      rw [ih h]

lemma removeAssoc_tableCount (rt : List (Nat × Monitor)) (k : Nat)
    (m : Monitor) (f : Filter)
    (h : (removeAssoc rt k).1 = some m) :
    tableCount rt f =
      m.task.transformations.count f + tableCount (removeAssoc rt k).2 f := by
  induction rt with
  | nil => simp [removeAssoc] at h
  | cons e rest ih =>
    simp only [removeAssoc] at h ⊢
    by_cases hk : e.1 = k
    · simp only [hk, if_true, if_pos rfl] at h ⊢
      cases h
      simp [tableCount]
    · simp only [hk, if_false] at h ⊢
      have := ih h
      simp only [tableCount, List.map_cons, List.sum_cons] at this ⊢
      omega

lemma removeAssoc_count_le (rt : List (Nat × Monitor)) (k : Nat)
    (m : Monitor) (f : Filter) (h : (removeAssoc rt k).1 = some m) :
    m.task.transformations.count f ≤ tableCount rt f := by
  rw [removeAssoc_tableCount rt k m f h]
  omega

lemma insertAssoc_fresh_tableCount (rt : List (Nat × Monitor))
    (v : Monitor) (f : Filter) :
    tableCount (insertAssoc rt (freshTid rt) v) f =
      tableCount rt f + v.task.transformations.count f := by
  have hfresh : ∀ e ∈ rt, e.1 < freshTid rt := by
    intro e he
    have hle : e.1 ≤ (rt.map (fun e => e.1)).foldr max 0 := by
      have hmem : e.1 ∈ rt.map (fun e => e.1) := List.mem_map.mpr ⟨e, he, rfl⟩
      exact List.le_max_of_le hmem le_rfl
    simp only [freshTid]
    omega
  have hnone : rt.any (fun e => e.1 = freshTid rt) = false := by
    rw [List.any_eq_false]
    intro e he hc
    simp only [decide_eq_true_eq] at hc
    exact absurd hc (Nat.ne_of_lt (hfresh e he))
  simp only [insertAssoc, hnone, Bool.false_eq_true, if_false]
  simp [tableCount]

lemma step_preserves_accounting (cfg : FiltersConfig) (s s' : ServerState)
    (e : ServerEvent) (hb : e.buildOkFlag = true)
    (hacc : accounting s) (hstep : s.step cfg e = some s') :
    accounting s' := by
  cases e with
  | clientRequest task sendOk =>
    simp only [ServerState.step, ServerState.new_task, Option.some.injEq]
      at hstep
    intro f
    rw [← hstep]
    exact hacc f
  | drain sendOk buildOk =>
    simp only [ServerEvent.buildOkFlag] at hb
    subst hb
    simp only [ServerState.step] at hstep
    cases hpop : s.try_pop_task cfg with
    | mk popped s1 =>
      rw [hpop] at hstep
      have hs1 : s1.filters_count = s.filters_count ∧
          s1.running_tasks = s.running_tasks := by
        unfold ServerState.try_pop_task at hpop
        cases hpeek : s.task_pqueue.peek with
        | none =>
          rw [hpeek] at hpop
          cases hpop
          exact ⟨rfl, rfl⟩
        | some m =>
          rw [hpeek] at hpop
          by_cases hcan : s.filters_count.can_run_pipeline cfg
              m.1.transformations = true
          · simp only [hcan, if_true, PQueue.pop, hpeek] at hpop
            cases hpop
            exact ⟨rfl, rfl⟩
          · rw [Bool.not_eq_true] at hcan
            simp only [hcan, Bool.false_eq_true, if_false] at hpop
            cases hpop
            exact ⟨rfl, rfl⟩
      have hacc1 : accounting s1 := by
        intro f
        rw [hs1.1, hs1.2]
        exact hacc f
      cases popped with
      | none =>
        simp only [Option.some.injEq] at hstep
        rw [← hstep]
        exact hacc1
      | some task =>
        simp only [Option.some.injEq] at hstep
        rw [← hstep]
        cases hsend : sendOk with
        | false =>
          simp only [ServerState.process_task, hsend, Bool.not_false,
            if_true]
          exact hacc1
        | true =>
          simp only [ServerState.process_task, hsend, Bool.not_true,
            Bool.false_eq_true, if_false, Bool.not_false]
          intro f
          simp only
          rw [insertAssoc_fresh_tableCount, add_assign_get]
          rw [hacc1 f]
  | workerCompletion res sendOk =>
    simp only [ServerState.step] at hstep
    cases hrem : (removeAssoc s.running_tasks res.thread).1 with
    | none =>
      simp only [ServerState.handle_task_result] at hstep
      rw [(Prod.mk.eta (p := removeAssoc s.running_tasks res.thread)).symm,
        hrem] at hstep
      simp at hstep
    | some monitor =>
      simp only [ServerState.handle_task_result] at hstep
      rw [(Prod.mk.eta (p := removeAssoc s.running_tasks res.thread)).symm,
        hrem] at hstep
      simp only [Option.some.injEq] at hstep
      rw [← hstep]
      intro f
      simp only [ClientTask.get_transformations]
      have hle : monitor.task.transformations.count f ≤
          s.filters_count.get f := by
        rw [hacc f]
        exact removeAssoc_count_le _ _ _ _ hrem
      rw [sub_assign_get _ _ _ hle, hacc f,
        removeAssoc_tableCount s.running_tasks res.thread monitor f hrem]
      omega

end AccountingLemmas

/-- C3 (amended): after any sequence of coordinator events in which every
monitor spawn succeeds, the running filter counts equal the componentwise
sum of the filter multisets of the tasks in the running-worker table;
this also covers the send-failure error paths of every operation.  (The
amendment excludes the monitor-spawn-failure path of `process_task`,
which the counterexample shows breaks the equality.) -/
theorem accounting_conservation (cfg : FiltersConfig)
    (evs : List ServerEvent) (s : ServerState)
    (hb : ∀ e ∈ evs, e.buildOkFlag = true)
    (hrun : ServerState.run cfg evs = some s) : accounting s := by
  have general : ∀ (evs : List ServerEvent) (s0 s : ServerState),
      (∀ e ∈ evs, e.buildOkFlag = true) → accounting s0 →
      s0.runFrom cfg evs = some s → accounting s := by
    intro evs
    induction evs with
    | nil =>
      intro s0 s _ hacc hrun
      simp only [ServerState.runFrom, Option.some.injEq] at hrun
      rw [← hrun]
      exact hacc
    | cons e evs ih =>
      intro s0 s hb hacc hrun
      simp only [ServerState.runFrom] at hrun
      cases hstep : s0.step cfg e with
      | none => rw [hstep] at hrun; exact absurd hrun (by simp)
      | some s1 =>
        rw [hstep] at hrun
        exact ih s1 s (fun x hx => hb x (List.mem_cons_of_mem _ hx))
          (step_preserves_accounting cfg s0 s1 e
            (hb e (List.mem_cons_self _ _)) hacc hstep) hrun
  exact general evs ServerState.init s hb
    (fun f => by simp [ServerState.init, FiltersConfig.default,
      tableCount, FiltersConfig.get]; cases f <;> rfl) hrun

/-- C3 witness instantiation target: running one admitted task to
completion from the initial state keeps the accounting equality. -/
theorem accounting_conservation_witness :
    accounting ⟨0, [(⟨1, 0, "in", "out", [Filter.nop]⟩, 0)],
      FiltersConfig.default, []⟩ :=
  accounting_conservation ⟨1, 0, 0, 0, 0, 0, 0⟩
    [.clientRequest ⟨1, 0, "in", "out", [Filter.nop]⟩ true]
    ⟨0, [(⟨1, 0, "in", "out", [Filter.nop]⟩, 0)], FiltersConfig.default, []⟩
    (by intro e he; simp only [List.mem_singleton] at he; rw [he]; rfl)
    rfl

/-- C3 counterexample: from the initial state, enqueue a `nop` task and
drain once with the monitor spawn failing; `process_task` has already
added the task's filters to the running counts but inserts no worker, so
the running counts (one `nop`) differ from the table sum (empty table). -/
theorem accounting_broken_on_spawn_failure :
    ServerState.run ⟨1, 0, 0, 0, 0, 0, 0⟩
      [.clientRequest ⟨1, 0, "in", "out", [Filter.nop]⟩ true,
       .drain true false] =
      some ⟨1, [], ⟨1, 0, 0, 0, 0, 0, 0⟩, []⟩ ∧
    ¬ accounting ⟨1, [], ⟨1, 0, 0, 0, 0, 0, 0⟩, []⟩ := by
  refine ⟨rfl, fun h => ?_⟩
  have := h Filter.nop
  simp [FiltersConfig.get, tableCount] at this

/-- Translation of the four `&mut` pieces of engine state that
`task_steal` (`src/bin/sdstored.rs`) operates on. -/
structure StealState where
  task_pqueue : PQueue
  filters_count : RunningFilters
  running_tasks : List (Nat × Monitor)
  task_counter : Nat
deriving Repr

/-- Translation of the `while let` loop of `task_steal`
(`src/bin/sdstored.rs`), with an explicit fuel bound: `none` means the
fuel ran out with the loop still running.  Each iteration peeks at the
queue; when the head is admissible it is popped, `Processing` is sent,
the filters are added to the running counts, a monitor is spawned and
inserted, and the counter is incremented.  When the head is NOT
admissible the body does nothing and the loop re-tests the same
condition — the source has no `else` branch that exits. -/
def taskStealGo (cfg : FiltersConfig) : Nat → StealState → Option StealState
  | 0, _ => none
  | fuel + 1, s =>
    match s.task_pqueue.peek with
    | none => some s
    | some (task, _) =>
      if s.filters_count.can_run_pipeline cfg task.transformations then
        match s.task_pqueue.pop with
        | none => some s
        | some (e, q') =>
          taskStealGo cfg fuel
            { task_pqueue := q',
              filters_count := s.filters_count.add_assign e.1.transformations,
              running_tasks := insertAssoc s.running_tasks
                (freshTid s.running_tasks)
                ⟨e.1, s.task_counter, freshTid s.running_tasks⟩,
              task_counter := s.task_counter + 1 }
      else
        taskStealGo cfg fuel s

lemma taskStealGo_blocked (cfg : FiltersConfig) (s : StealState)
    (t : ClientTask) (p : Nat) (hpeek : s.task_pqueue.peek = some (t, p))
    (hcant : s.filters_count.can_run_pipeline cfg t.transformations = false) :
    ∀ fuel, taskStealGo cfg fuel s = none := by
  intro fuel
  induction fuel with
  | zero => rfl
  | succ fuel ih =>
    simp only [taskStealGo, hpeek, hcant, Bool.false_eq_true, if_false]
    exact ih

/-- C5 counter-evidence: with all limits zero and a single queued task
requiring one `nop`, the head of the queue is never admissible and the
`task_steal` loop never returns, whatever fuel it is given — the source
loop has no exit branch for a non-admissible head. -/
theorem task_steal_spins_on_blocked_head :
    ∀ fuel : Nat, taskStealGo ⟨0, 0, 0, 0, 0, 0, 0⟩ fuel
      ⟨[(⟨1, 5, "in", "out", [Filter.nop]⟩, 5)],
       FiltersConfig.default, [], 0⟩ = none := by
  apply taskStealGo_blocked _ _ ⟨1, 5, "in", "out", [Filter.nop]⟩ 5
  · rfl
  · rfl

/-- C4 witness instantiation target: with all limits zero, a queued task
requiring one `nop` is at the head and inadmissible, and `try_pop_task`
pops nothing and leaves the state unchanged. -/
theorem try_pop_task_strict_priority_witness :
    ServerState.try_pop_task
      ⟨0, [(⟨1, 5, "in", "out", [Filter.nop]⟩, 5)],
        FiltersConfig.default, []⟩ ⟨0, 0, 0, 0, 0, 0, 0⟩ =
      (none, ⟨0, [(⟨1, 5, "in", "out", [Filter.nop]⟩, 5)],
        FiltersConfig.default, []⟩) :=
  (try_pop_task_strict_priority
    ⟨0, [(⟨1, 5, "in", "out", [Filter.nop]⟩, 5)],
      FiltersConfig.default, []⟩ ⟨0, 0, 0, 0, 0, 0, 0⟩).1
    ⟨1, 5, "in", "out", [Filter.nop]⟩ 5 rfl rfl

/-- C10 witness instantiation target: enqueueing a fresh request into the
empty initial queue leaves exactly one queue entry for it. -/
theorem duplicate_new_task_witness :
    ((ServerState.new_task ⟨0, [], FiltersConfig.default, []⟩
      ⟨1, 4, "a", "b", [Filter.encrypt]⟩ true).1).task_pqueue.countTask
      ⟨1, 4, "a", "b", [Filter.encrypt]⟩ = 1 :=
  (duplicate_new_task_collapses ⟨0, [], FiltersConfig.default, []⟩
    ⟨1, 4, "a", "b", [Filter.encrypt]⟩ true true).2 rfl

/-- Translation of `fmt_running_task` (`src/core/server/state.rs`): the
`write!` calls produce
`task #<num>: proc-file <priority> <input> <output>` followed by one
space-prefixed filter name per transformation and a newline; successive
`write!`s into the output string concatenate. -/
def fmt_running_task (monitor : Monitor) : String :=
  "task #" ++ toString monitor.task_number ++ ": proc-file " ++
  toString monitor.task.priority ++ " " ++ monitor.task.input ++ " " ++
  monitor.task.output ++
  monitor.task.transformations.foldl (fun acc f => acc ++ " " ++ f.name) ""
  ++ "\n"

/-- Translation of `fmt_filters` (`src/core/server/state.rs`): seven
`writeln!` lines, one per filter, in declaration order. -/
def fmt_filters (running : RunningFilters) (config : FiltersConfig) : String :=
  "transformation nop: " ++ toString running.nop ++ "/" ++
    toString config.nop ++ " (running/max)\n" ++
  ("transformation bcompress: " ++ toString running.bcompress ++ "/" ++
    toString config.bcompress ++ " (running/max)\n") ++
  ("transformation bdecompress: " ++ toString running.bdecompress ++ "/" ++
    toString config.bdecompress ++ " (running/max)\n") ++
  ("transformation gcompress: " ++ toString running.gcompress ++ "/" ++
    toString config.gcompress ++ " (running/max)\n") ++
  ("transformation gdecompress: " ++ toString running.gdecompress ++ "/" ++
    toString config.gdecompress ++ " (running/max)\n") ++
  ("transformation encrypt: " ++ toString running.encrypt ++ "/" ++
    toString config.encrypt ++ " (running/max)\n") ++
  ("transformation decrypt: " ++ toString running.decrypt ++ "/" ++
    toString config.decrypt ++ " (running/max)\n")

/-- Model of the `Vec::sort_by` call of `fmt_client_status` on the
monitor's task numbers: a stable insertion sort (for the distinct task
numbers the claims assume, every correct sort returns the same list). -/
def insertByTn (m : Monitor) : List Monitor → List Monitor
  | [] => [m]
  | x :: xs =>
    if x.task_number ≤ m.task_number then x :: insertByTn m xs
    else m :: x :: xs

/-- Sorting the running monitors by ascending task number, as
`fmt_client_status` does before rendering. -/
def sort_by_task_number : List Monitor → List Monitor
  | [] => []
  | x :: xs => insertByTn x (sort_by_task_number xs)

/-- Translation of `ServerState::fmt_client_status`
(`src/core/server/state.rs`) restricted to the string it builds: collect
the running monitors (the `HashMap::values` iteration order is arbitrary,
which is why the input list is quantified over permutations below), sort
them by task number, render one line per task, then the seven filter
lines. -/
def fmt_client_status (mons : List Monitor) (running : RunningFilters)
    (config : FiltersConfig) : String :=
  String.join ((sort_by_task_number mons).map fmt_running_task) ++
  fmt_filters running config

/-- Space-separated rendering of a list of words, as the spec's
`<f1> <f2> ... <fk>` format text. -/
def sepBySpace : List String → String
  | [] => ""
  | [x] => x
  | x :: xs => x ++ " " ++ sepBySpace xs

/-- Status line for one running task in the exact shape §4.1 of the spec
states:
`task #<n>: proc-file <priority> <input> <output> <f1> <f2> ... <fk>\n`. -/
def specTaskLine (m : Monitor) : String :=
  "task #" ++ toString m.task_number ++ ": proc-file " ++
  toString m.task.priority ++ " " ++ m.task.input ++ " " ++
  m.task.output ++ " " ++
  sepBySpace (m.task.transformations.map Filter.name) ++ "\n"

/-- The seven status filter lines in the exact shape §4.1 of the spec
states: `transformation <name>: <running>/<max> (running/max)\n`, in the
fixed declaration order of `Filter.all`. -/
def specFilterLines (running : RunningFilters) (config : FiltersConfig) :
    String :=
  String.join (Filter.all.map (fun f =>
    "transformation " ++ f.name ++ ": " ++ toString (running.get f) ++
    "/" ++ toString (config.get f) ++ " (running/max)\n"))

section StatusLemmas

lemma foldl_append_names (fs : List Filter) (a : String) :
    fs.foldl (fun acc f => acc ++ " " ++ f.name) a =
      a ++ String.join (fs.map (fun f => " " ++ f.name)) := by
  induction fs generalizing a with
  | nil =>
    apply String.ext
    simp
  | cons f fs ih =>
    simp only [List.foldl_cons, List.map_cons]
    rw [ih (a ++ " " ++ f.name)]
    apply String.ext
    simp

lemma join_cons_str (x : String) (xs : List String) :
    String.join (x :: xs) = x ++ String.join xs := by
  apply String.ext
  simp

lemma join_names_eq_sep (fs : List Filter) (h : fs ≠ []) :
    String.join (fs.map (fun f => " " ++ f.name)) =
      " " ++ sepBySpace (fs.map Filter.name) := by
  induction fs with
  | nil => exact absurd rfl h
  | cons f fs ih =>
    cases fs with
    | nil =>
      apply String.ext
      simp [sepBySpace]
    | cons g gs =>
      have hd := ih (by simp)
      rw [show (f :: g :: gs).map (fun f => " " ++ f.name) =
        (" " ++ f.name) :: (g :: gs).map (fun f => " " ++ f.name) from rfl]
      rw [show (f :: g :: gs).map Filter.name =
        f.name :: (g :: gs).map Filter.name from rfl]
      rw [show sepBySpace (f.name :: (g :: gs).map Filter.name) =
        f.name ++ " " ++ sepBySpace ((g :: gs).map Filter.name) from rfl]
      rw [join_cons_str, hd]
      apply String.ext
      simp [List.append_assoc]

lemma fmt_running_task_eq_specTaskLine (m : Monitor)
    (h : m.task.transformations ≠ []) :
    fmt_running_task m = specTaskLine m := by
  unfold fmt_running_task specTaskLine
  rw [foldl_append_names, join_names_eq_sep _ h]
  apply String.ext
  simp

set_option maxRecDepth 8000 in
lemma fmt_filters_eq_specFilterLines (running : RunningFilters)
    (config : FiltersConfig) :
    fmt_filters running config = specFilterLines running config := by
  apply String.ext
  simp only [fmt_filters, specFilterLines, Filter.all, Filter.name,
    FiltersConfig.get, List.map_cons, List.map_nil, String.data_join,
    List.flatten_cons, List.flatten_nil, String.data_append,
    List.append_assoc, List.append_nil]
  rfl

lemma insertByTn_perm (m : Monitor) (l : List Monitor) :
    (insertByTn m l).Perm (m :: l) := by
  induction l with
  | nil => exact List.Perm.refl _
  | cons x xs ih =>
    simp only [insertByTn]
    by_cases hle : x.task_number ≤ m.task_number
    · simp only [hle, if_true]
      exact (ih.cons x).trans (List.Perm.swap m x xs)
    · simp only [hle, if_false]
      exact List.Perm.refl _

lemma sort_by_task_number_perm (l : List Monitor) :
    (sort_by_task_number l).Perm l := by
  induction l with
  | nil => exact List.Perm.refl _
  | cons x xs ih =>
    exact (insertByTn_perm x (sort_by_task_number xs)).trans (ih.cons x)

lemma insertByTn_pairwise (m : Monitor) (l : List Monitor)
    (h : l.Pairwise (fun a b => a.task_number ≤ b.task_number)) :
    (insertByTn m l).Pairwise (fun a b => a.task_number ≤ b.task_number) := by
  induction l with
  | nil => simp [insertByTn]
  | cons x xs ih =>
    rw [List.pairwise_cons] at h
    obtain ⟨hx, hxs⟩ := h
    simp only [insertByTn]
    by_cases hle : x.task_number ≤ m.task_number
    · simp only [hle, if_true]
      rw [List.pairwise_cons]
      refine ⟨?_, ih hxs⟩
      intro b hb
      have hmem := (insertByTn_perm m xs).mem_iff.mp hb
      rcases List.mem_cons.mp hmem with hb | hb
      · subst hb; exact hle
      · exact hx b hb
    · simp only [hle, if_false]
      rw [List.pairwise_cons]
      refine ⟨?_, List.pairwise_cons.mpr ⟨hx, hxs⟩⟩
      intro b hb
      rcases List.mem_cons.mp hb with hb | hb
      · subst hb; omega
      · exact le_trans (by omega) (hx b hb)

lemma sort_by_task_number_pairwise (l : List Monitor) :
    (sort_by_task_number l).Pairwise
      (fun a b => a.task_number ≤ b.task_number) := by
  induction l with
  | nil => simp [sort_by_task_number]
  | cons x xs ih => exact insertByTn_pairwise x _ ih

lemma sorted_nodup_unique (l1 l2 : List Monitor) (hp : l1.Perm l2)
    (hs1 : l1.Pairwise (fun a b => a.task_number ≤ b.task_number))
    (hs2 : l2.Pairwise (fun a b => a.task_number ≤ b.task_number))
    (hnd : (l2.map Monitor.task_number).Nodup) : l1 = l2 := by
  haveI : IsAntisymm Monitor
      (fun a b => a.task_number < b.task_number) :=
    ⟨fun a b h1 h2 => absurd h2 (by omega)⟩
  have hnd1 : (l1.map Monitor.task_number).Nodup :=
    ((hp.map Monitor.task_number).nodup_iff).mpr hnd
  have strengthen : ∀ (l : List Monitor),
      l.Pairwise (fun a b => a.task_number ≤ b.task_number) →
      (l.map Monitor.task_number).Nodup →
      l.Pairwise (fun a b => a.task_number < b.task_number) := by
    intro l hle hnodup
    rw [List.Nodup, List.pairwise_map] at hnodup
    have := hle.and hnodup
    exact this.imp (fun h => lt_of_le_of_ne h.1 h.2)
  exact List.eq_of_perm_of_sorted hp
    (strengthen l1 hs1 hnd1) (strengthen l2 hs2 hnd)

end StatusLemmas

/-- C8: the rendered status string is deterministic — byte-identical for
every iteration order of the running-worker table provided task numbers
are distinct — and consists of one spec-shaped line per running task in
ascending task-number order, followed by the seven spec-shaped
`transformation` lines in the fixed order nop, bcompress, bdecompress,
gcompress, gdecompress, encrypt, decrypt. -/
theorem fmt_client_status_deterministic_and_shaped (mons : List Monitor)
    (running : RunningFilters) (config : FiltersConfig)
    (hnodup : (mons.map Monitor.task_number).Nodup)
    (hne : ∀ m ∈ mons, m.task.transformations ≠ []) :
    (∀ mons', mons'.Perm mons →
      fmt_client_status mons' running config =
        fmt_client_status mons running config) ∧
    ∃ sorted : List Monitor, sorted.Perm mons ∧
      sorted.Pairwise (fun a b => a.task_number ≤ b.task_number) ∧
      fmt_client_status mons running config =
        String.join (sorted.map specTaskLine) ++
          specFilterLines running config := by
  constructor
  · intro mons' hperm
    unfold fmt_client_status
    have hsortnd : ((sort_by_task_number mons).map Monitor.task_number).Nodup :=
      (((sort_by_task_number_perm mons).map Monitor.task_number).nodup_iff).mpr
        hnodup
    have heq : sort_by_task_number mons' = sort_by_task_number mons :=
      sorted_nodup_unique _ _
        (((sort_by_task_number_perm mons').trans hperm).trans
          (sort_by_task_number_perm mons).symm)
        (sort_by_task_number_pairwise mons')
        (sort_by_task_number_pairwise mons) hsortnd
    rw [heq]
  · refine ⟨sort_by_task_number mons, sort_by_task_number_perm mons,
      sort_by_task_number_pairwise mons, ?_⟩
    unfold fmt_client_status
    rw [fmt_filters_eq_specFilterLines]
    congr 1
    apply congrArg
    apply List.map_congr_left
    intro m hm
    exact fmt_running_task_eq_specTaskLine m
      (hne m ((sort_by_task_number_perm mons).mem_iff.mp hm))

/-- C8 witness instantiation target: swapping the iteration order of two
running tasks with distinct task numbers leaves the rendered status
byte-identical. -/
theorem fmt_client_status_witness :
    fmt_client_status
      [⟨⟨2, 1, "c", "d", [Filter.encrypt]⟩, 1, 11⟩,
       ⟨⟨1, 2, "a", "b", [Filter.bcompress, Filter.nop]⟩, 0, 10⟩]
      ⟨1, 1, 0, 0, 0, 1, 0⟩ ⟨3, 1, 0, 0, 0, 1, 0⟩ =
    fmt_client_status
      [⟨⟨1, 2, "a", "b", [Filter.bcompress, Filter.nop]⟩, 0, 10⟩,
       ⟨⟨2, 1, "c", "d", [Filter.encrypt]⟩, 1, 11⟩]
      ⟨1, 1, 0, 0, 0, 1, 0⟩ ⟨3, 1, 0, 0, 0, 1, 0⟩ :=
  (fmt_client_status_deterministic_and_shaped
    [⟨⟨1, 2, "a", "b", [Filter.bcompress, Filter.nop]⟩, 0, 10⟩,
     ⟨⟨2, 1, "c", "d", [Filter.encrypt]⟩, 1, 11⟩]
    ⟨1, 1, 0, 0, 0, 1, 0⟩ ⟨3, 1, 0, 0, 0, 1, 0⟩
    (by decide) (by decide)).1
    [⟨⟨2, 1, "c", "d", [Filter.encrypt]⟩, 1, 11⟩,
     ⟨⟨1, 2, "a", "b", [Filter.bcompress, Filter.nop]⟩, 0, 10⟩]
    (List.Perm.swap _ _ _)

/-- Translation of the `enum FilterCfgParseError` variants reachable from
`FiltersConfig::parse` (`src/server_config.rs`); `io` payloads are
dropped. -/
inductive FilterCfgParseError where
  | lineParseError
  | filterLimitParseError (filter : List Char)
deriving DecidableEq, Repr

/-- Character-list view of a filter's name, for comparing config-file
tokens against the seven known names (strings are their character
lists throughout the parser model, because Lean's built-in `String`
splitting functions are well-founded recursions the kernel cannot
evaluate). -/
def filterKey (f : Filter) : List Char :=
  (Filter.name f).data

/-- Structural model of splitting a string at `\n` characters, the
splitting underlying Rust `str::lines`: every `\n` ends a piece, and the
pieces do not contain the separator. -/
def splitNl : List Char → List (List Char)
  | [] => [[]]
  | c :: cs =>
    if c = '\n' then [] :: splitNl cs
    else
      match splitNl cs with
      | [] => [[c]]
      | l :: ls => (c :: l) :: ls

/-- Model of the `\r` stripping of Rust `str::lines`: drop one trailing
carriage return from a line. -/
def stripCR (l : List Char) : List Char :=
  if l.getLast? = some '\r' then l.dropLast else l

/-- Model of Rust `str::lines`: split at `\n`, drop the final piece when
it is empty (the final line ending is optional), and strip one trailing
`\r` from each piece. -/
def rustLines (s : List Char) : List (List Char) :=
  let parts := splitNl s
  let parts := if parts.getLast? = some [] then parts.dropLast else parts
  parts.map stripCR

/-- Helper of `splitWhitespace`: accumulate the current word (reversed)
while scanning the line. -/
def splitWsAux : List Char → List Char → List (List Char)
  | [], acc => if acc = [] then [] else [acc.reverse]
  | c :: cs, acc =>
    if c.isWhitespace then
      if acc = [] then splitWsAux cs [] else acc.reverse :: splitWsAux cs []
    else splitWsAux cs (c :: acc)

/-- Model of Rust `str::split_whitespace`: the maximal whitespace-free
words of the line, in order. -/
def splitWhitespace (s : List Char) : List (List Char) :=
  splitWsAux s []

/-- Model of Rust `str::trim`: drop whitespace from both ends. -/
def trimChars (s : List Char) : List Char :=
  ((s.dropWhile Char.isWhitespace).reverse.dropWhile Char.isWhitespace).reverse

/-- Model of Rust `str::parse::<usize>`: an optional leading `+` sign
followed by one or more ascii digits (the unbounded `Nat` model ignores
the `usize` overflow bound). -/
def parseUsize (s : List Char) : Option Nat :=
  let t := match s with
    | '+' :: rest => rest
    | _ => s
  if t = [] then none
  else if t.all Char.isDigit then
    some (t.foldl (fun n c => n * 10 + (c.toNat - 48)) 0)
  else none

/-- Translation of the `match filter { ... }` statement of
`FiltersConfig::parse`: set the component named by the first token,
silently ignoring unknown filter names. -/
def FiltersConfig.setByName (conf : FiltersConfig) (w : List Char)
    (count : Nat) : FiltersConfig :=
  if w = filterKey .nop then { conf with nop := count }
  else if w = filterKey .bcompress then { conf with bcompress := count }
  else if w = filterKey .bdecompress then { conf with bdecompress := count }
  else if w = filterKey .gcompress then { conf with gcompress := count }
  else if w = filterKey .gdecompress then { conf with gdecompress := count }
  else if w = filterKey .encrypt then { conf with encrypt := count }
  else if w = filterKey .decrypt then { conf with decrypt := count }
  else conf

/-- Translation of the line loop of `FiltersConfig::parse`
(`src/server_config.rs`): take the first two whitespace-separated tokens
of the line (`LineParseError` when either is missing), parse the trimmed
count (`FilterLimitParseError` on failure), apply the update and
continue with the remaining lines. -/
def FiltersConfig.parseLines : List (List Char) → FiltersConfig →
    Except FilterCfgParseError FiltersConfig
  | [], conf => .ok conf
  | l :: ls, conf =>
    match (splitWhitespace l).head?, (splitWhitespace l).tail.head? with
    | some filter, some count =>
      match parseUsize (trimChars count) with
      | none => .error (.filterLimitParseError filter)
      | some c => FiltersConfig.parseLines ls (conf.setByName filter c)
    | _, _ => .error .lineParseError

/-- Translation of `FiltersConfig::parse` (`src/server_config.rs`):
iterate the line loop over the file's lines starting from the all-zero
default configuration. -/
def FiltersConfig.parse (s : String) :
    Except FilterCfgParseError FiltersConfig :=
  FiltersConfig.parseLines (rustLines s.data) FiltersConfig.default

/-- A malformed config line in the claim's sense: fewer than two
whitespace-separated tokens, or a second token that does not parse as a
non-negative integer. -/
def malformedLine (l : List Char) : Bool :=
  match (splitWhitespace l).head?, (splitWhitespace l).tail.head? with
  | some _, some count => (parseUsize (trimChars count)).isNone
  | _, _ => true

/-- The count a config line assigns to a given filter: the parsed second
token when the line's first token is that filter's name, `none`
otherwise. -/
def lineVal (f : Filter) (l : List Char) : Option Nat :=
  match (splitWhitespace l).head?, (splitWhitespace l).tail.head? with
  | some w, some count =>
    if w = filterKey f then parseUsize (trimChars count) else none
  | _, _ => none

section ConfigParseLemmas

lemma setByName_get_self (conf : FiltersConfig) (f : Filter) (c : Nat) :
    (conf.setByName (filterKey f) c).get f = c := by
  cases f <;> rfl

lemma setByName_get_other (conf : FiltersConfig) (w : List Char) (c : Nat)
    (f : Filter) (hw : ¬ w = filterKey f) :
    (conf.setByName w c).get f = conf.get f := by
  cases f <;>
    (simp only [FiltersConfig.setByName]
     split_ifs <;> rfl)

lemma setByName_get (conf : FiltersConfig) (w : List Char) (c : Nat)
    (f : Filter) :
    (conf.setByName w c).get f =
      if w = filterKey f then c else conf.get f := by
  by_cases hw : w = filterKey f
  · rw [if_pos hw, hw]
    exact setByName_get_self conf f c
  · rw [if_neg hw]
    exact setByName_get_other conf w c f hw

lemma getLastD_cons (c : Nat) (rest : List Nat) (d : Nat) :
    ((c :: rest).getLast?).getD d = (rest.getLast?).getD c := by
  cases rest with
  | nil => rfl
  | cons r rs =>
    rw [List.getLast?_cons_cons]
    cases hx : (r :: rs).getLast? with
    | none => simp at hx
    | some x => rfl

lemma parseLines_error_iff (ls : List (List Char)) (conf : FiltersConfig) :
    (∃ err, FiltersConfig.parseLines ls conf = .error err) ↔
      ∃ l ∈ ls, malformedLine l = true := by
  induction ls generalizing conf with
  | nil => simp [FiltersConfig.parseLines]
  | cons l ls ih =>
    cases h1 : (splitWhitespace l).head? with
    | none =>
      simp only [FiltersConfig.parseLines, h1]
      have hm : malformedLine l = true := by
        simp only [malformedLine, h1]
      constructor
      · intro _
        exact ⟨l, List.mem_cons_self _ _, hm⟩
      · intro _
        exact ⟨.lineParseError, rfl⟩
    | some w =>
      cases h2 : (splitWhitespace l).tail.head? with
      | none =>
        simp only [FiltersConfig.parseLines, h1, h2]
        have hm : malformedLine l = true := by
          simp only [malformedLine, h1, h2]
        constructor
        · intro _
          exact ⟨l, List.mem_cons_self _ _, hm⟩
        · intro _
          exact ⟨.lineParseError, rfl⟩
      | some count =>
        cases h3 : parseUsize (trimChars count) with
        | none =>
          simp only [FiltersConfig.parseLines, h1, h2, h3]
          have hm : malformedLine l = true := by
            simp only [malformedLine, h1, h2, h3, Option.isNone]
          constructor
          · intro _
            exact ⟨l, List.mem_cons_self _ _, hm⟩
          · intro _
            exact ⟨.filterLimitParseError w, rfl⟩
        | some c =>
          have hm : malformedLine l = false := by
            simp only [malformedLine, h1, h2, h3, Option.isNone]
          simp only [FiltersConfig.parseLines, h1, h2, h3]
          rw [ih (conf.setByName w c)]
          constructor
          · intro ⟨x, hx, hmal⟩
            exact ⟨x, List.mem_cons_of_mem _ hx, hmal⟩
          · intro ⟨x, hx, hmal⟩
            rcases List.mem_cons.mp hx with hx | hx
            · subst hx
              rw [hm] at hmal
              exact absurd hmal (by simp)
            · exact ⟨x, hx, hmal⟩

lemma parseLines_get (ls : List (List Char)) (conf : FiltersConfig)
    (f : Filter) (h : ∀ l ∈ ls, malformedLine l = false) :
    ∃ cfg, FiltersConfig.parseLines ls conf = .ok cfg ∧
      cfg.get f = ((ls.filterMap (lineVal f)).getLast?).getD (conf.get f) := by
  induction ls generalizing conf with
  | nil => exact ⟨conf, rfl, by simp⟩
  | cons l ls ih =>
    have hl := h l (List.mem_cons_self _ _)
    cases h1 : (splitWhitespace l).head? with
    | none => simp [malformedLine, h1] at hl
    | some w =>
      cases h2 : (splitWhitespace l).tail.head? with
      | none => simp [malformedLine, h1, h2] at hl
      | some count =>
        cases h3 : parseUsize (trimChars count) with
        | none => simp [malformedLine, h1, h2, h3] at hl
        | some c =>
          obtain ⟨cfg, hok, hget⟩ := ih (conf.setByName w c)
            (fun x hx => h x (List.mem_cons_of_mem _ hx))
          refine ⟨cfg, ?_, ?_⟩
          · simp only [FiltersConfig.parseLines, h1, h2, h3]
            exact hok
          · by_cases hw : w = filterKey f
            · have hvl : lineVal f l = some c := by
                simp only [lineVal, h1, h2, hw, if_true, h3]
              rw [List.filterMap_cons_some hvl, getLastD_cons, hget,
                setByName_get, if_pos hw]
            · have hvl : lineVal f l = none := by
                simp only [lineVal, h1, h2, hw, if_false]
              rw [List.filterMap_cons_none hvl, hget, setByName_get,
                if_neg hw]

end ConfigParseLemmas

/-- C9 (amended): `FiltersConfig::parse` fails exactly when some line of
the file is malformed — fewer than two whitespace-separated tokens,
which includes empty lines, or a count that does not parse as a
non-negative integer — and on success every filter's limit is the count
of the last well-formed line naming it, with filters not mentioned on
any line defaulting to `0` and lines naming unknown filters ignored. -/
theorem filters_config_parse_characterisation (s : String) :
    ((∃ err, FiltersConfig.parse s = .error err) ↔
      ∃ l ∈ rustLines s.data, malformedLine l = true) ∧
    ((∀ l ∈ rustLines s.data, malformedLine l = false) →
      ∃ cfg, FiltersConfig.parse s = .ok cfg ∧
        ∀ f : Filter, cfg.get f =
          (((rustLines s.data).filterMap (lineVal f)).getLast?).getD 0) := by
  constructor
  · exact parseLines_error_iff _ _
  · intro h
    obtain ⟨cfg, hok, -⟩ :=
      parseLines_get (rustLines s.data) FiltersConfig.default Filter.nop h
    refine ⟨cfg, hok, fun f => ?_⟩
    obtain ⟨cfg', hok', hget'⟩ :=
      parseLines_get (rustLines s.data) FiltersConfig.default f h
    rw [hok] at hok'
    have hcfg : cfg = cfg' := by
      cases hok'
      rfl
    subst hcfg
    rw [hget']
    have h0 : FiltersConfig.default.get f = 0 := by
      cases f <;> rfl
    rw [h0]

/-- C9 counterexample: a configuration file consisting of one empty line
(a single newline character) is rejected with `LineParseError` — the
empty line yields no tokens, and the parser treats any line with fewer
than two tokens as malformed, contradicting the claim that empty lines
are not malformed. -/
theorem parse_rejects_empty_line :
    rustLines ("\n".data) = [[]] ∧
    FiltersConfig.parse "\n" = .error .lineParseError := by
  constructor <;> rfl

/-- C9 witness instantiation target: a well-formed file mentioning `nop`,
an unknown name, and `encrypt` parses to the limits it writes, ignoring
the unknown line and defaulting the unmentioned filters to zero. -/
theorem filters_config_parse_witness :
    ∃ cfg, FiltersConfig.parse "nop 3\nunknown 5\nencrypt 2\n" = .ok cfg ∧
      ∀ f : Filter, cfg.get f =
        (((rustLines ("nop 3\nunknown 5\nencrypt 2\n").data).filterMap
          (lineVal f)).getLast?).getD 0 :=
  (filters_config_parse_characterisation "nop 3\nunknown 5\nencrypt 2\n").2
    (by decide)

end Sdstore
